import Mathlib

/-!
Session state machine of the policy assistant front end

Shallow embedding of `src/frontend/src/App.jsx`.

The React component `App` keeps its state in `useState` cells.  Every handler
of the component is embedded as a function on an explicit `State` record.  The
asynchronous parts of a handler (the continuation after `await api.post(...)`
and the callbacks given to `setTimeout`) are embedded as separate functions;
the requests and timers that are outstanding are kept in the state, each with
the values its continuation has captured, so that a later event can run the
continuation.  Time is a natural number of milliseconds.

Strings are Lean strings.  The objects stored in `messages` are records with
the four properties the component ever writes (`role`, `text`, `sources`,
`timestamp`); a property that is not written is `none`.
-/

namespace PolicyAssistant

/-! ## Data model -/

/-- A browser `File` handle: the component reads only `name`. -/
structure File where
  name : String
  bytes : List Nat
deriving DecidableEq, Repr

/-- Values of the `view` cell: `'landing'` and `'workspace'`. -/
inductive View where
  | landing
  | workspace
deriving DecidableEq, Repr

/-- Values of the `uploadStatus` cell. -/
inductive UploadStatus where
  | idle
  | uploading
  | success
  | error
deriving DecidableEq, Repr

/-- An element of the `messages` array. -/
structure Message where
  role : String
  text : String
  sources : Option (List String)
  timestamp : Option Nat
deriving DecidableEq, Repr

/-- The body `res.data` of a fulfilled `/chat` request. -/
structure ChatResponse where
  answer : String
  sources : Option (List String)
deriving DecidableEq, Repr

/-- The form data posted to `/upload`. -/
structure UploadRequest where
  file : File
  company_id : String
deriving DecidableEq, Repr

/-- The JSON body posted to `/chat`. -/
structure ChatRequest where
  question : String
  company_id : String
deriving DecidableEq, Repr

/-- The argument `text` of `sendMessage`: a string at both call sites of the
component; the other two shapes exercise the `typeof text === 'string'` test. -/
inductive JsValue where
  | str (s : String)
  | undefined
  | object
deriving DecidableEq, Repr

/-- JavaScript truthiness: `!text` is `!(truthy text)`. -/
def JsValue.truthy : JsValue → Bool
  | .str s => !s.data.isEmpty
  | .undefined => false
  | .object => true

/-- The state cells of `App` (lines 17-25) followed by the environment: the
clock, the requests in flight and the timers that have not fired yet. -/
structure State where
  view : View
  companyId : String
  file : Option File
  uploadStatus : UploadStatus
  messages : List Message
  input : String
  isLoading : Bool
  copiedIndex : Option Nat
  clock : Nat
  pendingUploads : List UploadRequest
  uploadTimers : List (Nat × File)
  pendingChats : List ChatRequest
  copyTimers : List Nat
deriving DecidableEq, Repr

/-- State at page load (the initial values given to `useState`). -/
def initialState (companyId : String) : State :=
  { view := .landing, companyId := companyId, file := none, uploadStatus := .idle,
    messages := [], input := "", isLoading := false, copiedIndex := none,
    clock := 0, pendingUploads := [], uploadTimers := [], pendingChats := [],
    copyTimers := [] }

/-- The array `quickActions` (lines 29-33). -/
def quickActions : List String :=
  ["Summarize this policy", "List all holidays", "What is the notice period?"]

/-! ## String primitives of the host language -/

/-- White space and line terminators of ECMAScript, the characters that
`String.prototype.trim` removes. -/
def isWhiteSpace (c : Char) : Bool :=
  let n := c.toNat
  n == 0x9 || n == 0xA || n == 0xB || n == 0xC || n == 0xD || n == 0x20 || n == 0xA0
    || n == 0x1680 || (0x2000 ≤ n && n ≤ 0x200A) || n == 0x2028 || n == 0x2029
    || n == 0x202F || n == 0x205F || n == 0x3000 || n == 0xFEFF

/-- `String.prototype.trim`: white space removed from both ends. -/
def trim (s : String) : String :=
  ⟨((s.data.dropWhile isWhiteSpace).reverse.dropWhile isWhiteSpace).reverse⟩

/-- `String.prototype.toUpperCase` on the letters `a`-`z`; other characters
are kept (the component only ever stores the roles `user` and `assistant`). -/
def toUpperCase (s : String) : String :=
  ⟨s.data.map fun c => if 97 ≤ c.toNat ∧ c.toNat ≤ 122 then Char.ofNat (c.toNat - 32) else c⟩

/-- `Array.prototype.join` on an array of strings. -/
def join (sep : String) : List String → String
  | [] => ""
  | [x] => x
  | x :: y :: rest => x ++ sep ++ join sep (y :: rest)

/-! ## Handlers -/

/-- The message built by the timer callback of `handleUpload` (lines 52-56);
`now` is the value of `new Date()`. -/
def seedMessage (name : String) (now : Nat) : Message :=
  { role := "assistant",
    text := "**" ++ name ++ "** is active. Ask me anything about the policy!",
    sources := none, timestamp := some now }

/-- The message appended by `sendMessage` before the request (line 71). -/
def userMessage (msgText : String) : Message :=
  { role := "user", text := msgText, sources := none, timestamp := none }

/-- The message appended when `/chat` is fulfilled (lines 77-81). -/
def answerMessage (res : ChatResponse) : Message :=
  { role := "assistant", text := res.answer, sources := res.sources, timestamp := none }

/-- The message appended when `/chat` is rejected (line 83). -/
def errorMessage : Message :=
  { role := "assistant", text := "Server error. Please try again.",
    sources := none, timestamp := none }

/-- `handleUpload` up to its `await` (lines 36-46): `files0` is
`e.target.files[0]`. -/
def handleUpload (files0 : Option File) (s : State) : State :=
  match files0 with
  | none => s
  | some selectedFile =>
    { s with
      uploadStatus := .uploading,
      pendingUploads := s.pendingUploads ++ [{ file := selectedFile, company_id := s.companyId }] }

/-- Continuation of `handleUpload` when `/upload` is fulfilled (lines 47-57). -/
def uploadFulfilled (selectedFile : File) (s : State) : State :=
  { s with
    file := some selectedFile,
    uploadStatus := .success,
    uploadTimers := s.uploadTimers ++ [(s.clock + 1000, selectedFile)] }

/-- Continuation of `handleUpload` when `/upload` is rejected (lines 59-62). -/
def uploadRejected (s : State) : State :=
  { s with uploadStatus := .error }

/-- Callback of the timer set by `handleUpload` (lines 50-57). -/
def uploadTimerFired (selectedFile : File) (s : State) : State :=
  { s with view := .workspace, messages := [seedMessage selectedFile.name s.clock] }

/-- `sendMessage` up to its `await` (lines 65-76). -/
def sendMessage (text : JsValue) (s : State) : State :=
  if !text.truthy then s
  else
    let msgText := match text with
      | .str t => t
      | _ => s.input
    if (trim msgText).data.isEmpty then s
    else
      { s with
        messages := s.messages ++ [userMessage msgText],
        input := "",
        isLoading := true,
        pendingChats := s.pendingChats ++ [{ question := msgText, company_id := s.companyId }] }

/-- Continuation of `sendMessage` when `/chat` is fulfilled (lines 77-81, 85). -/
def chatFulfilled (res : ChatResponse) (s : State) : State :=
  { s with messages := s.messages ++ [answerMessage res], isLoading := false }

/-- Continuation of `sendMessage` when `/chat` is rejected (lines 83, 85). -/
def chatRejected (s : State) : State :=
  { s with messages := s.messages ++ [errorMessage], isLoading := false }

/-- The string `textContent` of `downloadChat` (line 90). -/
def textContent (messages : List Message) : String :=
  join "\n\n" (messages.map fun m => "[" ++ toUpperCase m.role ++ "]: " ++ m.text)

/-- What `downloadChat` hands to the browser. -/
structure Download where
  filename : String
  mimeType : String
  content : String
deriving DecidableEq, Repr

/-- `downloadChat` (lines 89-97): the state after the call and the download. -/
def downloadChat (s : State) : State × Download :=
  (s, { filename := "chat-history.txt", mimeType := "text/plain",
        content := textContent s.messages })

/-- `copyToClipboard` (lines 99-103), on the state cells and timers. -/
def copyToClipboard (index : Nat) (s : State) : State :=
  { s with copiedIndex := some index, copyTimers := s.copyTimers ++ [s.clock + 2000] }

/-- Callback of the timer set by `copyToClipboard` (line 102). -/
def copyTimerFired (s : State) : State :=
  { s with copiedIndex := none }

/-- `resetSession` (lines 105-110). -/
def resetSession (s : State) : State :=
  { s with view := .landing, file := none, messages := [], uploadStatus := .idle }

/-- The label of the copy button of message `i` (lines 208-209). -/
def shownAsCopied (s : State) (i : Nat) : Bool :=
  s.copiedIndex == some i

/-! ## Events and the step relation -/

/-- What can happen to the page: time passing, a user action offered by the
view that is rendered, the settlement of a request in flight, the firing of a
timer that is due.  Requests and timers are named by their position in the
lists of the state. -/
inductive Event where
  | tick (dt : Nat)
  | fileChange (files0 : Option File)
  | uploadFulfilled (i : Nat)
  | uploadRejected (i : Nat)
  | uploadTimer (i : Nat)
  | inputChange (value : String)
  | formSubmit
  | quickAction (i : Nat)
  | chatFulfilled (i : Nat) (res : ChatResponse)
  | chatRejected (i : Nat)
  | downloadClick
  | copyClick (i : Nat)
  | copyTimer (i : Nat)
  | resetClick
deriving DecidableEq, Repr

/-- One step of the page.  `none` when the event cannot happen in `s`: the
control is not rendered in the current view (lines 117-140 render the file
input only, lines 143-245 the workspace controls), the submit button is
disabled (line 238), there is no such request or timer, or the timer is not
due yet. -/
def step (s : State) : Event → Option State
  | .tick dt => some { s with clock := s.clock + dt }
  | .fileChange files0 =>
    if s.view = .landing then some (handleUpload files0 s) else none
  | .uploadFulfilled i =>
    match s.pendingUploads[i]? with
    | some r =>
      some (uploadFulfilled r.file { s with pendingUploads := s.pendingUploads.eraseIdx i })
    | none => none
  | .uploadRejected i =>
    match s.pendingUploads[i]? with
    | some _ => some (uploadRejected { s with pendingUploads := s.pendingUploads.eraseIdx i })
    | none => none
  | .uploadTimer i =>
    match s.uploadTimers[i]? with
    | some (due, selectedFile) =>
      if due ≤ s.clock then
        some (uploadTimerFired selectedFile { s with uploadTimers := s.uploadTimers.eraseIdx i })
      else none
    | none => none
  | .inputChange value =>
    if s.view = .workspace then some { s with input := value } else none
  | .formSubmit =>
    if s.view = .workspace ∧ s.isLoading = false then some (sendMessage (.str s.input) s)
    else none
  | .quickAction i =>
    if s.view = .workspace then
      match quickActions[i]? with
      | some action => some (sendMessage (.str action) s)
      | none => none
    else none
  | .chatFulfilled i res =>
    match s.pendingChats[i]? with
    | some _ => some (chatFulfilled res { s with pendingChats := s.pendingChats.eraseIdx i })
    | none => none
  | .chatRejected i =>
    match s.pendingChats[i]? with
    | some _ => some (chatRejected { s with pendingChats := s.pendingChats.eraseIdx i })
    | none => none
  | .downloadClick =>
    if s.view = .workspace then some (downloadChat s).1 else none
  | .copyClick i =>
    if s.view = .workspace then
      match s.messages[i]? with
      | some msg => if msg.role = "assistant" then some (copyToClipboard i s) else none
      | none => none
    else none
  | .copyTimer i =>
    match s.copyTimers[i]? with
    | some due =>
      if due ≤ s.clock then some (copyTimerFired { s with copyTimers := s.copyTimers.eraseIdx i })
      else none
    | none => none
  | .resetClick =>
    if s.view = .workspace then some (resetSession s) else none

/-- Runs a list of events in order; `none` as soon as one cannot happen. -/
def run (s : State) : List Event → Option State
  | [] => some s
  | e :: es => (step s e).bind fun s1 => run s1 es

/-- States reachable from page load. -/
inductive Reachable (companyId : String) : State → Prop where
  | init : Reachable companyId (initialState companyId)
  | next {s s1 : State} (e : Event) : Reachable companyId s → step s e = some s1 →
      Reachable companyId s1

/-- One chat exchange run to completion from `s`: `sendMessage x.1`, then the
fulfilment, with body `x.2`, of the request it has issued (the request at
position `s.pendingChats.length`). -/
def exchange (s : State) (x : String × ChatResponse) : Option State :=
  step (sendMessage (.str x.1) s) (.chatFulfilled s.pendingChats.length x.2)

/-- Chat exchanges run one at a time. -/
def exchanges (s : State) : List (String × ChatResponse) → Option State
  | [] => some s
  | x :: xs => (exchange s x).bind fun s1 => exchanges s1 xs

/-- The two messages an exchange adds to the transcript. -/
def exchangeMessages (x : String × ChatResponse) : List Message :=
  [userMessage x.1, answerMessage x.2]

/-! ## Texts that `sendMessage` ignores -/

/-- A text that is empty or made of white space only. -/
def whitespaceOnly (t : String) : Bool :=
  t.data.all isWhiteSpace

/-! ## Sessions and predicates used in the statements -/

/-- A workspace state right after the upload of `policy.pdf`, used to
instantiate the statements below. -/
def sampleWorkspace : State :=
  { initialState "comp_k3j9x2m1q" with
    view := .workspace,
    file := some { name := "policy.pdf", bytes := [37, 80, 68, 70] },
    uploadStatus := .success,
    messages := [seedMessage "policy.pdf" 1000],
    clock := 1000 }

/-- Two files selected one after the other on the landing screen. -/
def fileA : File := { name := "leave.pdf", bytes := [37, 80, 68, 70] }

/-- The second file. -/
def fileB : File := { name := "travel.docx", bytes := [80, 75, 3, 4] }

/-- A session in which a second file is selected while the first upload is in
flight; the first upload is fulfilled and opens the workspace, one question is
asked and answered, then the second upload is fulfilled and its timer is due. -/
def overlappingUploads : List Event :=
  [.fileChange (some fileA), .fileChange (some fileB), .uploadFulfilled 0, .tick 1000,
   .uploadTimer 0, .quickAction 2, .chatFulfilled 0 { answer := "30 days", sources := none },
   .uploadFulfilled 0, .tick 1000]

/-- The step relation of sessions whose uploads do not overlap: a file is
selected only while no `/upload` request is in flight and no upload timer is
pending. -/
def stepSerial (s : State) (e : Event) : Option State :=
  match e with
  | .fileChange _ =>
    if s.pendingUploads = [] ∧ s.uploadTimers = [] then step s e else none
  | _ => step s e

/-- States reachable from page load without overlapping uploads. -/
inductive ReachableSerial (companyId : String) : State → Prop where
  | init : ReachableSerial companyId (initialState companyId)
  | next {s s1 : State} (e : Event) : ReachableSerial companyId s →
      stepSerial s e = some s1 → ReachableSerial companyId s1

/-- Two uploads overlap and both are fulfilled; the timer of the first opens
the workspace, the user resets, then the timer of the second fires. -/
def resetBeforeSecondTimer : List Event :=
  [.fileChange (some fileA), .fileChange (some fileB), .uploadFulfilled 0, .uploadFulfilled 0,
   .tick 1000, .uploadTimer 0, .resetClick, .uploadTimer 0]

/-- The part of the state an event leaves alone when it neither belongs to
the upload flow nor resets: view, file, uploads in flight and upload timers
are kept and the transcript is extended. -/
def Framed (s s1 : State) : Prop :=
  s1.view = s.view ∧ s1.file = s.file ∧ s1.pendingUploads = s.pendingUploads ∧
    s1.uploadTimers = s.uploadTimers ∧ s.messages <+: s1.messages

/-- In the workspace the transcript starts with a seed message. -/
def SeedFirst (s : State) : Prop :=
  s.view = .workspace → ∃ name now, s.messages.head? = some (seedMessage name now)

/-- In the workspace a file is set and the transcript starts with the seed
message that names it. -/
def SeedNamesFile (s : State) : Prop :=
  s.view = .workspace →
    ∃ f now, s.file = some f ∧ s.messages.head? = some (seedMessage f.name now)

/-- Invariant of the sessions without overlapping uploads. -/
def SerialInv (s : State) : Prop :=
  s.pendingUploads.length + s.uploadTimers.length ≤ 1 ∧
    (s.view = .workspace → s.pendingUploads = [] ∧ s.uploadTimers = []) ∧
    (∀ p ∈ s.uploadTimers, s.file = some p.2) ∧
    SeedNamesFile s

/-- A session with one upload: selection, fulfilment, the one-second delay,
the timer. -/
def singleUpload : List Event :=
  [.fileChange (some { name := "policy.pdf", bytes := [37, 80, 68, 70] }), .uploadFulfilled 0,
   .tick 1000, .uploadTimer 0]

/-- Runs a list of events in order without overlapping uploads. -/
def runSerial (s : State) : List Event → Option State
  | [] => some s
  | e :: es => (stepSerial s e).bind fun s1 => runSerial s1 es

/-- The workspace after one answered question. -/
def sampleChat : State :=
  { sampleWorkspace with
    messages := [seedMessage "policy.pdf" 1000, userMessage "List all holidays",
      answerMessage { answer := "12 days", sources := some ["p. 7"] }] }

/-- A session in which message 0 is copied and 1500 ms pass: one upload, one
answered question, the copy, the wait. -/
def copyThenWait : List Event :=
  singleUpload ++
    [.quickAction 1, .chatFulfilled 0 { answer := "12 days", sources := some ["p. 7"] },
     .copyClick 0, .tick 1500]

/-- The state at the end of `copyThenWait`: index 0 is tracked and the timer of
its copy, due at 3000, is pending. -/
def copiedZero : State :=
  { sampleChat with copiedIndex := some 0, clock := 2500, copyTimers := [3000] }

/-- While an index is tracked, a copy timer due at most 2000 ms ahead is
pending. -/
def CopyTimerPending (s : State) : Prop :=
  ∀ i, s.copiedIndex = some i →
    ∃ (n : Nat) (due : Nat), s.copyTimers[n]? = some due ∧ due ≤ s.clock + 2000

/-! ## Lemmas on the primitives -/

theorem trim_isEmpty (t : String) : (trim t).data.isEmpty = whitespaceOnly t := by
  unfold trim whitespaceOnly
  rw [Bool.eq_iff_iff]
  simp only [List.isEmpty_iff, List.reverse_eq_nil_iff, List.dropWhile_eq_nil_iff,
    List.mem_reverse, List.all_eq_true]
  constructor
  · intro h c hc
    by_cases hnil : t.data.dropWhile isWhiteSpace = []
    · exact (List.dropWhile_eq_nil_iff.mp hnil) c hc
    · have hhead := List.head_dropWhile_not isWhiteSpace t.data hnil
      have hmem := List.head_mem hnil
      rw [h _ hmem] at hhead
      exact absurd hhead (by decide)
  · intro h c hc
    have hnil : t.data.dropWhile isWhiteSpace = [] := List.dropWhile_eq_nil_iff.mpr h
    rw [hnil] at hc
    exact absurd hc (List.not_mem_nil c)

theorem truthy_of_not_whitespaceOnly (t : String) (h : whitespaceOnly t = false) :
    (JsValue.str t).truthy = true := by
  cases ht : t.data with
  | nil => simp [whitespaceOnly, ht] at h
  | cons c cs => simp [JsValue.truthy, ht]

theorem sendMessage_whitespaceOnly (t : String) (s : State) (h : whitespaceOnly t = true) :
    sendMessage (.str t) s = s := by
  unfold sendMessage
  by_cases ht : (JsValue.str t).truthy = true
  · simp [ht, trim_isEmpty, h]
  · simp [ht]

theorem sendMessage_text (t : String) (s : State) (h : whitespaceOnly t = false) :
    sendMessage (.str t) s =
      { s with
        messages := s.messages ++ [userMessage t],
        input := "",
        isLoading := true,
        pendingChats := s.pendingChats ++ [{ question := t, company_id := s.companyId }] } := by
  unfold sendMessage
  simp [truthy_of_not_whitespaceOnly t h, trim_isEmpty, h]

theorem eraseIdx_concat_length {α : Type} (l : List α) (a : α) :
    (l ++ [a]).eraseIdx l.length = l := by
  rw [List.eraseIdx_append_of_length_le (Nat.le_refl _)]
  simp

theorem step_chatFulfilled_after_send (t : String) (res : ChatResponse) (s : State)
    (h : whitespaceOnly t = false) :
    step (sendMessage (.str t) s) (.chatFulfilled s.pendingChats.length res) =
      some { s with
        messages := s.messages ++ [userMessage t, answerMessage res],
        input := "",
        isLoading := false } := by
  rw [sendMessage_text t s h]
  simp [step, chatFulfilled, eraseIdx_concat_length]

theorem step_chatRejected_after_send (t : String) (s : State)
    (h : whitespaceOnly t = false) :
    step (sendMessage (.str t) s) (.chatRejected s.pendingChats.length) =
      some { s with
        messages := s.messages ++ [userMessage t, errorMessage],
        input := "",
        isLoading := false } := by
  rw [sendMessage_text t s h]
  simp [step, chatRejected, eraseIdx_concat_length]

theorem exchanges_messages (xs : List (String × ChatResponse)) :
    ∀ s : State, (∀ x ∈ xs, whitespaceOnly x.1 = false) →
      ∃ s1, exchanges s xs = some s1 ∧
        s1.messages = s.messages ++ xs.flatMap exchangeMessages := by
  induction xs with
  | nil => intro s _; exact ⟨s, rfl, by simp⟩
  | cons x xs ih =>
    intro s h
    have hx : whitespaceOnly x.1 = false := h x (List.mem_cons_self _ _)
    have hrest : ∀ y ∈ xs, whitespaceOnly y.1 = false :=
      fun y hy => h y (List.mem_cons_of_mem _ hy)
    obtain ⟨s1, hrun, hmsgs⟩ := ih
      { s with
        messages := s.messages ++ [userMessage x.1, answerMessage x.2],
        input := "",
        isLoading := false } hrest
    refine ⟨s1, ?_, ?_⟩
    · simp only [exchanges, exchange, step_chatFulfilled_after_send x.1 x.2 s hx,
        Option.some_bind]
      exact hrun
    · rw [hmsgs]
      simp [exchangeMessages]

/-! ## Claims -/

/-- C1: from a transcript that is the single seed message, N chat exchanges run
one at a time (each a `sendMessage` of a text that is not white space only,
then the fulfilment of its request) all go through, and the final transcript
is the seed followed, per exchange and in order, by the user message with the
submitted text unchanged and the assistant message with the answer and the
sources of the response; its length is `1 + 2 * N`. -/
theorem transcript_after_exchanges (s : State) (name : String) (now : Nat)
    (xs : List (String × ChatResponse))
    (hseed : s.messages = [seedMessage name now])
    (hxs : ∀ x ∈ xs, whitespaceOnly x.1 = false) :
    ∃ s1, exchanges s xs = some s1 ∧
      s1.messages = seedMessage name now :: xs.flatMap (fun x =>
        [{ role := "user", text := x.1, sources := none, timestamp := none },
         { role := "assistant", text := x.2.answer, sources := x.2.sources,
           timestamp := none }]) ∧
      s1.messages.length = 1 + 2 * xs.length := by
  obtain ⟨s1, hrun, hmsgs⟩ := exchanges_messages xs s hxs
  have hshape : s1.messages = seedMessage name now :: xs.flatMap (fun x =>
      [{ role := "user", text := x.1, sources := none, timestamp := none },
       { role := "assistant", text := x.2.answer, sources := x.2.sources,
         timestamp := none }]) := by
    rw [hmsgs, hseed]
    rfl
  refine ⟨s1, hrun, hshape, ?_⟩
  rw [hshape]
  have hlen : ∀ ys : List (String × ChatResponse),
      (ys.flatMap (fun x =>
        ([{ role := "user", text := x.1, sources := none, timestamp := none },
          { role := "assistant", text := x.2.answer, sources := x.2.sources,
            timestamp := none }] : List Message))).length = 2 * ys.length := by
    intro ys
    induction ys with
    | nil => rfl
    | cons y ys ih => simp only [List.flatMap_cons, List.length_append, ih, List.length_cons,
        List.length_nil]; omega
  simp only [List.length_cons, hlen]
  omega

theorem transcript_after_exchanges_witness :
    (sampleWorkspace.messages = [seedMessage "policy.pdf" 1000] ∧
      ∀ x ∈ [("What is the notice period?", ChatResponse.mk "30 days" (some ["p. 3"])),
             (" and holidays? ", ChatResponse.mk "12" none)],
        whitespaceOnly x.1 = false) ∧
    ∃ s1, exchanges sampleWorkspace
        [("What is the notice period?", ChatResponse.mk "30 days" (some ["p. 3"])),
         (" and holidays? ", ChatResponse.mk "12" none)] = some s1 ∧
      s1.messages = seedMessage "policy.pdf" 1000 ::
        [("What is the notice period?", ChatResponse.mk "30 days" (some ["p. 3"])),
         (" and holidays? ", ChatResponse.mk "12" none)].flatMap (fun x =>
        [{ role := "user", text := x.1, sources := none, timestamp := none },
         { role := "assistant", text := x.2.answer, sources := x.2.sources,
           timestamp := none }]) ∧
      s1.messages.length = 1 + 2 * 2 :=
  ⟨⟨rfl, by decide⟩,
    transcript_after_exchanges sampleWorkspace "policy.pdf" 1000 _ rfl (by decide)⟩

/-- C2: for every state and every text that is empty or white space only,
`sendMessage` returns the state unchanged: transcript, input box, loading flag
and the list of `/chat` requests in flight are what they were. -/
theorem sendMessage_blank_ignored (s : State) (t : String) (h : whitespaceOnly t = true) :
    sendMessage (.str t) s = s ∧
      (sendMessage (.str t) s).messages = s.messages ∧
      (sendMessage (.str t) s).input = s.input ∧
      (sendMessage (.str t) s).isLoading = s.isLoading ∧
      (sendMessage (.str t) s).pendingChats = s.pendingChats := by
  rw [sendMessage_whitespaceOnly t s h]
  exact ⟨rfl, rfl, rfl, rfl, rfl⟩

theorem sendMessage_blank_ignored_witness :
    whitespaceOnly " \t\n " = true ∧
      (sendMessage (.str " \t\n ") sampleWorkspace = sampleWorkspace ∧
        (sendMessage (.str " \t\n ") sampleWorkspace).messages = sampleWorkspace.messages ∧
        (sendMessage (.str " \t\n ") sampleWorkspace).input = sampleWorkspace.input ∧
        (sendMessage (.str " \t\n ") sampleWorkspace).isLoading = sampleWorkspace.isLoading ∧
        (sendMessage (.str " \t\n ") sampleWorkspace).pendingChats =
          sampleWorkspace.pendingChats) :=
  ⟨by decide, sendMessage_blank_ignored sampleWorkspace " \t\n " (by decide)⟩

/-- C3: for every state with transcript `T` and every text `t` that is not
white space only, `sendMessage t` followed by the rejection of its `/chat`
request gives the transcript `T`, then the user message `t`, then the assistant
message "Server error. Please try again." without sources; the loading flag is
false, and view, file and upload status are unchanged. -/
theorem chat_failure_appends_fallback (s : State) (t : String)
    (h : whitespaceOnly t = false) :
    ∃ s1, step (sendMessage (.str t) s) (.chatRejected s.pendingChats.length) = some s1 ∧
      s1.messages = s.messages ++
        [{ role := "user", text := t, sources := none, timestamp := none },
         { role := "assistant", text := "Server error. Please try again.",
           sources := none, timestamp := none }] ∧
      s1.isLoading = false ∧
      s1.view = s.view ∧ s1.file = s.file ∧ s1.uploadStatus = s.uploadStatus :=
  ⟨_, step_chatRejected_after_send t s h, rfl, rfl, rfl, rfl, rfl⟩

theorem chat_failure_appends_fallback_witness :
    whitespaceOnly "List all holidays" = false ∧
    ∃ s1, step (sendMessage (.str "List all holidays") sampleWorkspace)
        (.chatRejected sampleWorkspace.pendingChats.length) = some s1 ∧
      s1.messages = sampleWorkspace.messages ++
        [{ role := "user", text := "List all holidays", sources := none, timestamp := none },
         { role := "assistant", text := "Server error. Please try again.",
           sources := none, timestamp := none }] ∧
      s1.isLoading = false ∧
      s1.view = sampleWorkspace.view ∧ s1.file = sampleWorkspace.file ∧
      s1.uploadStatus = sampleWorkspace.uploadStatus :=
  ⟨by decide, chat_failure_appends_fallback sampleWorkspace "List all holidays" (by decide)⟩

/-- C4: for every state and every selected file, when `/upload` is fulfilled
and the one-second timer then fires, the view is workspace, the stored file is
the selected file, the upload status is success and the transcript is exactly
one assistant message whose text is the file name, verbatim, between
`**` and `** is active. Ask me anything about the policy!`, whatever the
transcript held before. -/
theorem upload_success_seeds_transcript (s : State) (f : File) (dt : Nat)
    (hdt : 1000 ≤ dt) :
    ∃ s1, run (handleUpload (some f) s)
        [.uploadFulfilled s.pendingUploads.length, .tick dt,
         .uploadTimer s.uploadTimers.length] = some s1 ∧
      s1.view = .workspace ∧ s1.file = some f ∧ s1.uploadStatus = .success ∧
      s1.messages =
        [{ role := "assistant",
           text := "**" ++ f.name ++ "** is active. Ask me anything about the policy!",
           sources := none, timestamp := some (s.clock + dt) }] := by
  have hdue : s.clock + 1000 ≤ s.clock + dt := by omega
  simp [run, step, handleUpload, uploadFulfilled, uploadTimerFired, seedMessage,
    eraseIdx_concat_length, hdue]

theorem upload_success_seeds_transcript_witness :
    1000 ≤ 1000 ∧
    ∃ s1, run (handleUpload (some { name := "policy.pdf", bytes := [37, 80, 68, 70] })
          (initialState "comp_k3j9x2m1q"))
        [.uploadFulfilled (initialState "comp_k3j9x2m1q").pendingUploads.length, .tick 1000,
         .uploadTimer (initialState "comp_k3j9x2m1q").uploadTimers.length] = some s1 ∧
      s1.view = .workspace ∧
      s1.file = some { name := "policy.pdf", bytes := [37, 80, 68, 70] } ∧
      s1.uploadStatus = .success ∧
      s1.messages =
        [{ role := "assistant",
           text := "**" ++ (File.mk "policy.pdf" [37, 80, 68, 70]).name ++
             "** is active. Ask me anything about the policy!",
           sources := none,
           timestamp := some ((initialState "comp_k3j9x2m1q").clock + 1000) }] :=
  ⟨by decide, upload_success_seeds_transcript (initialState "comp_k3j9x2m1q")
    { name := "policy.pdf", bytes := [37, 80, 68, 70] } 1000 (by decide)⟩

/-- C5: for every state whatsoever, requests and timers outstanding or not,
the state right after `resetSession` has view landing, upload status idle, an
empty transcript and no file. -/
theorem resetSession_returns_to_landing (s : State) :
    (resetSession s).view = .landing ∧ (resetSession s).uploadStatus = .idle ∧
      (resetSession s).messages = [] ∧ (resetSession s).file = none :=
  ⟨rfl, rfl, rfl, rfl⟩

/-- C8: for every state without a file, when a file is selected and its
`/upload` request is rejected, the upload status is error, there is still no
file, and view, transcript and session id are unchanged; no upload timer has
been set, so no seed message is scheduled. -/
theorem upload_failure_sets_error (s : State) (f : File) (hfile : s.file = none) :
    ∃ s1, step (handleUpload (some f) s) (.uploadRejected s.pendingUploads.length) = some s1 ∧
      s1.uploadStatus = .error ∧ s1.file = none ∧
      s1.view = s.view ∧ s1.messages = s.messages ∧ s1.companyId = s.companyId ∧
      s1.uploadTimers = s.uploadTimers := by
  simp [step, handleUpload, uploadRejected, eraseIdx_concat_length, hfile]

theorem upload_failure_sets_error_witness :
    (initialState "comp_k3j9x2m1q").file = none ∧
    ∃ s1, step (handleUpload (some { name := "policy.pdf", bytes := [37, 80, 68, 70] })
          (initialState "comp_k3j9x2m1q"))
        (.uploadRejected (initialState "comp_k3j9x2m1q").pendingUploads.length) = some s1 ∧
      s1.uploadStatus = .error ∧ s1.file = none ∧
      s1.view = (initialState "comp_k3j9x2m1q").view ∧
      s1.messages = (initialState "comp_k3j9x2m1q").messages ∧
      s1.companyId = (initialState "comp_k3j9x2m1q").companyId ∧
      s1.uploadTimers = (initialState "comp_k3j9x2m1q").uploadTimers :=
  ⟨rfl, upload_failure_sets_error (initialState "comp_k3j9x2m1q")
    { name := "policy.pdf", bytes := [37, 80, 68, 70] } rfl⟩

theorem join_eq_intercalate (sep : String) (l : List String) :
    join sep l = String.intercalate sep l := by
  have hgo : ∀ (l : List String) (acc x : String),
      String.intercalate.go acc sep (x :: l) = acc ++ sep ++ join sep (x :: l) := by
    intro l
    induction l with
    | nil => intro acc x; simp [String.intercalate.go, join]
    | cons y ys ih =>
      intro acc x
      rw [String.intercalate.go, ih]
      simp [join, String.append_assoc]
  cases l with
  | nil => rfl
  | cons x xs =>
    cases xs with
    | nil => simp [join, String.intercalate, String.intercalate.go]
    | cons y ys =>
      rw [String.intercalate, hgo]
      simp [join]

/-- C6: for every state whose messages have role `user` or `assistant`, the
text produced by `downloadChat` is the blocks `[ROLE]: text`, one per message
in transcript order with ROLE `USER` for a user message and `ASSISTANT` for an
assistant message, separated by the two characters `\n\n` (the empty
transcript giving the empty text); there are as many blocks as messages, the
text depends on roles and texts only, not on sources, and `downloadChat`
returns the state unchanged. -/
theorem downloadChat_exports_blocks (s : State)
    (hroles : ∀ m ∈ s.messages, m.role = "user" ∨ m.role = "assistant") :
    (downloadChat s).2.content =
        String.intercalate "\n\n" (s.messages.map fun m =>
          "[" ++ (if m.role = "user" then "USER" else "ASSISTANT") ++ "]: " ++ m.text) ∧
      (s.messages = [] → (downloadChat s).2.content = "") ∧
      (s.messages.map fun m =>
          "[" ++ (if m.role = "user" then "USER" else "ASSISTANT") ++ "]: " ++ m.text).length
        = s.messages.length ∧
      (∀ s2 : State, s2.messages.map (fun m => (m.role, m.text)) =
          s.messages.map (fun m => (m.role, m.text)) →
        (downloadChat s2).2.content = (downloadChat s).2.content) ∧
      (downloadChat s).2.filename = "chat-history.txt" ∧
      (downloadChat s).1 = s := by
  refine ⟨?_, ?_, by simp, ?_, rfl, rfl⟩
  · simp only [downloadChat, textContent, join_eq_intercalate]
    congr 1
    apply List.map_congr_left
    intro m hm
    rcases hroles m hm with h | h
    · rw [h]; rfl
    · rw [h]; rfl
  · intro h
    simp [downloadChat, textContent, h, join]
  · intro s2 h
    simp only [downloadChat, textContent]
    congr 1
    have hmap : ∀ l : List Message,
        l.map (fun m => "[" ++ toUpperCase m.role ++ "]: " ++ m.text) =
          (l.map (fun m => (m.role, m.text))).map
            (fun p => "[" ++ toUpperCase p.1 ++ "]: " ++ p.2) := by
      intro l
      simp [List.map_map, Function.comp_def]
    rw [hmap, hmap, h]

theorem downloadChat_exports_blocks_witness :
    (∀ m ∈ ({ sampleWorkspace with messages :=
          [seedMessage "policy.pdf" 1000, userMessage "List all holidays",
           answerMessage { answer := "12 days", sources := some ["p. 7"] }] } : State).messages,
        m.role = "user" ∨ m.role = "assistant") ∧
    (downloadChat { sampleWorkspace with messages :=
          [seedMessage "policy.pdf" 1000, userMessage "List all holidays",
           answerMessage { answer := "12 days", sources := some ["p. 7"] }] }).2.content =
      "[ASSISTANT]: **policy.pdf** is active. Ask me anything about the policy!\n\n" ++
        "[USER]: List all holidays\n\n[ASSISTANT]: 12 days" :=
  ⟨by decide,
    ((downloadChat_exports_blocks { sampleWorkspace with messages :=
          [seedMessage "policy.pdf" 1000, userMessage "List all holidays",
           answerMessage { answer := "12 days", sources := some ["p. 7"] }] }
        (by decide)).1).trans (by decide)⟩

/-! ## Append-only transcript -/

theorem reachable_of_run (companyId : String) (es : List Event) :
    ∀ s s1 : State, Reachable companyId s → run s es = some s1 → Reachable companyId s1 := by
  induction es with
  | nil =>
    intro s s1 hs hrun
    simp only [run, Option.some.injEq] at hrun
    exact hrun ▸ hs
  | cons e es ih =>
    intro s s1 hs hrun
    simp only [run] at hrun
    cases hstep : step s e with
    | none => simp [hstep] at hrun
    | some s2 =>
      rw [hstep] at hrun
      exact ih s2 s1 (Reachable.next e hs hstep) hrun

theorem sendMessage_cases (text : JsValue) (s : State) :
    sendMessage text s = s ∨ ∃ msgText : String, sendMessage text s =
      { s with
        messages := s.messages ++ [userMessage msgText],
        input := "",
        isLoading := true,
        pendingChats :=
          s.pendingChats ++ [{ question := msgText, company_id := s.companyId }] } := by
  have key : ∀ msgText : String,
      (if (trim msgText).data.isEmpty then s
       else
        { s with
          messages := s.messages ++ [userMessage msgText],
          input := "",
          isLoading := true,
          pendingChats :=
            s.pendingChats ++ [{ question := msgText, company_id := s.companyId }] }) = s ∨
      ∃ m : String, (if (trim msgText).data.isEmpty then s
       else
        { s with
          messages := s.messages ++ [userMessage msgText],
          input := "",
          isLoading := true,
          pendingChats :=
            s.pendingChats ++ [{ question := msgText, company_id := s.companyId }] }) =
        { s with
          messages := s.messages ++ [userMessage m],
          input := "",
          isLoading := true,
          pendingChats := s.pendingChats ++ [{ question := m, company_id := s.companyId }] } := by
    intro msgText
    split
    · exact Or.inl rfl
    · exact Or.inr ⟨msgText, rfl⟩
  unfold sendMessage
  split
  · exact Or.inl rfl
  · cases text with
    | str t => exact key t
    | undefined => exact key s.input
    | object => exact key s.input

theorem sendMessage_messages (text : JsValue) (s : State) :
    s.messages <+: (sendMessage text s).messages := by
  rcases sendMessage_cases text s with h | ⟨m, h⟩
  · rw [h]
  · rw [h]; exact List.prefix_append _ _

theorem prefix_singleton {α : Type} (l : List α) (a : α) :
    l <+: [a] ↔ l = [] ∨ l = [a] := by
  cases l with
  | nil => simp
  | cons x xs => simp [List.cons_prefix_cons, List.prefix_nil]

/-- C7, counterexample: in the reachable state at the end of
`overlappingUploads` the transcript holds the seed of the first file, the
question and the answer; the firing of the second upload timer, an event that
is not `resetSession`, leaves only the seed of the second file. -/
theorem append_only_fails_at_upload_timer :
    ¬ ∀ (companyId : String) (s s1 : State) (e : Event), Reachable companyId s →
        e ≠ .resetClick → step s e = some s1 → s.messages <+: s1.messages := by
  intro h
  have hreach : ∀ s, run (initialState "comp_k3j9x2m1q") overlappingUploads = some s →
      Reachable "comp_k3j9x2m1q" s :=
    fun s hs => reachable_of_run _ _ _ s Reachable.init hs
  have hbad := h "comp_k3j9x2m1q"
    { initialState "comp_k3j9x2m1q" with
      view := .workspace, file := some fileB, uploadStatus := .success,
      messages := [seedMessage "leave.pdf" 1000, userMessage "What is the notice period?",
        answerMessage { answer := "30 days", sources := none }],
      clock := 2000, uploadTimers := [(2000, fileB)] }
    { initialState "comp_k3j9x2m1q" with
      view := .workspace, file := some fileB, uploadStatus := .success,
      messages := [seedMessage "travel.docx" 2000],
      clock := 2000 }
    (.uploadTimer 0) (hreach _ (by decide)) (by decide) (by decide)
  revert hbad
  decide

/-- C7, amended: for every state and every event that can happen in it, other
than `resetSession` and the firing of an upload timer, the transcript before
the event is a prefix of the transcript after it; the firing of an upload
timer sets the transcript to the single seed message of the timer's file, and
the transcript before is then a prefix of the transcript after exactly when it
was empty or was already that one seed message; `resetSession` empties it.
`sendMessage` itself keeps the transcript as a prefix for any argument. -/
theorem transcript_append_only_except_timer (s s1 : State) (e : Event)
    (hstep : step s e = some s1) :
    (e ≠ .resetClick → (∀ i, e ≠ .uploadTimer i) → s.messages <+: s1.messages) ∧
      (∀ i, e = .uploadTimer i → ∃ due selectedFile,
        s.uploadTimers[i]? = some (due, selectedFile) ∧ due ≤ s.clock ∧
          s1.messages = [seedMessage selectedFile.name s.clock] ∧
          (s.messages <+: s1.messages ↔
            s.messages = [] ∨ s.messages = [seedMessage selectedFile.name s.clock])) ∧
      (e = .resetClick → s1.messages = []) ∧
      (∀ text, s.messages <+: (sendMessage text s).messages) := by
  refine ⟨?_, ?_, ?_, fun text => sendMessage_messages text s⟩
  · intro hreset htimer
    cases e with
    | tick dt =>
      simp only [step, Option.some.injEq] at hstep
      subst hstep; exact List.prefix_refl _
    | fileChange files0 =>
      simp only [step] at hstep
      split at hstep
      · simp only [Option.some.injEq] at hstep
        subst hstep
        cases files0 <;> exact List.prefix_refl _
      · exact absurd hstep (by simp)
    | uploadFulfilled i =>
      simp only [step] at hstep
      split at hstep
      · simp only [Option.some.injEq] at hstep
        subst hstep; exact List.prefix_refl _
      · exact absurd hstep (by simp)
    | uploadRejected i =>
      simp only [step] at hstep
      split at hstep
      · simp only [Option.some.injEq] at hstep
        subst hstep; exact List.prefix_refl _
      · exact absurd hstep (by simp)
    | uploadTimer i => exact absurd rfl (htimer i)
    | inputChange value =>
      simp only [step] at hstep
      split at hstep
      · simp only [Option.some.injEq] at hstep
        subst hstep; exact List.prefix_refl _
      · exact absurd hstep (by simp)
    | formSubmit =>
      simp only [step] at hstep
      split at hstep
      · simp only [Option.some.injEq] at hstep
        subst hstep; exact sendMessage_messages _ s
      · exact absurd hstep (by simp)
    | quickAction i =>
      simp only [step] at hstep
      split at hstep
      · split at hstep
        · simp only [Option.some.injEq] at hstep
          subst hstep; exact sendMessage_messages _ s
        · exact absurd hstep (by simp)
      · exact absurd hstep (by simp)
    | chatFulfilled i res =>
      simp only [step] at hstep
      split at hstep
      · simp only [Option.some.injEq] at hstep
        subst hstep; exact List.prefix_append _ _
      · exact absurd hstep (by simp)
    | chatRejected i =>
      simp only [step] at hstep
      split at hstep
      · simp only [Option.some.injEq] at hstep
        subst hstep; exact List.prefix_append _ _
      · exact absurd hstep (by simp)
    | downloadClick =>
      simp only [step] at hstep
      split at hstep
      · simp only [Option.some.injEq] at hstep
        subst hstep; exact List.prefix_refl _
      · exact absurd hstep (by simp)
    | copyClick i =>
      simp only [step] at hstep
      split at hstep
      · split at hstep
        · split at hstep
          · simp only [Option.some.injEq] at hstep
            subst hstep; exact List.prefix_refl _
          · exact absurd hstep (by simp)
        · exact absurd hstep (by simp)
      · exact absurd hstep (by simp)
    | copyTimer i =>
      simp only [step] at hstep
      split at hstep
      · split at hstep
        · simp only [Option.some.injEq] at hstep
          subst hstep; exact List.prefix_refl _
        · exact absurd hstep (by simp)
      · exact absurd hstep (by simp)
    | resetClick => exact absurd rfl hreset
  · intro i he
    subst he
    simp only [step] at hstep
    split at hstep
    · rename_i due selectedFile hget
      split at hstep
      · rename_i hdue
        simp only [Option.some.injEq] at hstep
        subst hstep
        exact ⟨due, selectedFile, hget, hdue, rfl, prefix_singleton _ _⟩
      · exact absurd hstep (by simp)
    · exact absurd hstep (by simp)
  · intro he
    subst he
    simp only [step] at hstep
    split at hstep
    · simp only [Option.some.injEq] at hstep
      subst hstep; rfl
    · exact absurd hstep (by simp)

theorem transcript_append_only_except_timer_witness :
    step sampleWorkspace (.quickAction 0) =
        some (sendMessage (.str "Summarize this policy") sampleWorkspace) ∧
      sampleWorkspace.messages <+:
        (sendMessage (.str "Summarize this policy") sampleWorkspace).messages :=
  ⟨by decide,
    (transcript_append_only_except_timer sampleWorkspace
      (sendMessage (.str "Summarize this policy") sampleWorkspace) (.quickAction 0)
      (by decide)).1 (by decide) (fun i => by simp)⟩

/-! ## The workspace and its seed message -/

theorem sendMessage_framed (text : JsValue) (s : State) : Framed s (sendMessage text s) := by
  refine ⟨?_, ?_, ?_, ?_, sendMessage_messages text s⟩ <;>
  · rcases sendMessage_cases text s with h | ⟨m, h⟩ <;> rw [h]

theorem step_effect (s s1 : State) (e : Event) (hstep : step s e = some s1) :
    Framed s s1 ∨
      (∃ files0, e = .fileChange files0 ∧ s.view = .landing ∧ s1 = handleUpload files0 s) ∨
      (∃ i r, (e = .uploadFulfilled i ∨ e = .uploadRejected i) ∧
        s.pendingUploads[i]? = some r ∧ s1.view = s.view ∧ s1.messages = s.messages ∧
        s1.pendingUploads = s.pendingUploads.eraseIdx i ∧
        ((s1.file = some r.file ∧ s1.uploadTimers = s.uploadTimers ++ [(s.clock + 1000, r.file)])
          ∨ (s1.file = s.file ∧ s1.uploadTimers = s.uploadTimers))) ∨
      (∃ i due f, e = .uploadTimer i ∧ s.uploadTimers[i]? = some (due, f) ∧
        s1 = uploadTimerFired f { s with uploadTimers := s.uploadTimers.eraseIdx i }) ∨
      (e = .resetClick ∧ s.view = .workspace ∧ s1 = resetSession s) := by
  cases e with
  | tick dt =>
    simp only [step, Option.some.injEq] at hstep
    subst hstep
    exact Or.inl ⟨rfl, rfl, rfl, rfl, List.prefix_refl _⟩
  | fileChange files0 =>
    simp only [step] at hstep
    split at hstep
    · rename_i hview
      simp only [Option.some.injEq] at hstep
      exact Or.inr (Or.inl ⟨files0, rfl, hview, hstep.symm⟩)
    · exact absurd hstep (by simp)
  | uploadFulfilled i =>
    simp only [step] at hstep
    split at hstep
    · rename_i r hget
      simp only [Option.some.injEq] at hstep
      subst hstep
      exact Or.inr (Or.inr (Or.inl ⟨i, r, Or.inl rfl, hget, rfl, rfl, rfl, Or.inl ⟨rfl, rfl⟩⟩))
    · exact absurd hstep (by simp)
  | uploadRejected i =>
    simp only [step] at hstep
    split at hstep
    · rename_i r hget
      simp only [Option.some.injEq] at hstep
      subst hstep
      exact Or.inr (Or.inr (Or.inl ⟨i, r, Or.inr rfl, hget, rfl, rfl, rfl, Or.inr ⟨rfl, rfl⟩⟩))
    · exact absurd hstep (by simp)
  | uploadTimer i =>
    simp only [step] at hstep
    split at hstep
    · rename_i due f hget
      split at hstep
      · simp only [Option.some.injEq] at hstep
        exact Or.inr (Or.inr (Or.inr (Or.inl ⟨i, due, f, rfl, hget, hstep.symm⟩)))
      · exact absurd hstep (by simp)
    · exact absurd hstep (by simp)
  | inputChange value =>
    simp only [step] at hstep
    split at hstep
    · simp only [Option.some.injEq] at hstep
      subst hstep
      exact Or.inl ⟨rfl, rfl, rfl, rfl, List.prefix_refl _⟩
    · exact absurd hstep (by simp)
  | formSubmit =>
    simp only [step] at hstep
    split at hstep
    · simp only [Option.some.injEq] at hstep
      subst hstep
      exact Or.inl (sendMessage_framed _ s)
    · exact absurd hstep (by simp)
  | quickAction i =>
    simp only [step] at hstep
    split at hstep
    · split at hstep
      · simp only [Option.some.injEq] at hstep
        subst hstep
        exact Or.inl (sendMessage_framed _ s)
      · exact absurd hstep (by simp)
    · exact absurd hstep (by simp)
  | chatFulfilled i res =>
    simp only [step] at hstep
    split at hstep
    · simp only [Option.some.injEq] at hstep
      subst hstep
      exact Or.inl ⟨rfl, rfl, rfl, rfl, List.prefix_append _ _⟩
    · exact absurd hstep (by simp)
  | chatRejected i =>
    simp only [step] at hstep
    split at hstep
    · simp only [Option.some.injEq] at hstep
      subst hstep
      exact Or.inl ⟨rfl, rfl, rfl, rfl, List.prefix_append _ _⟩
    · exact absurd hstep (by simp)
  | downloadClick =>
    simp only [step] at hstep
    split at hstep
    · simp only [Option.some.injEq] at hstep
      subst hstep
      exact Or.inl ⟨rfl, rfl, rfl, rfl, List.prefix_refl _⟩
    · exact absurd hstep (by simp)
  | copyClick i =>
    simp only [step] at hstep
    split at hstep
    · split at hstep
      · split at hstep
        · simp only [Option.some.injEq] at hstep
          subst hstep
          exact Or.inl ⟨rfl, rfl, rfl, rfl, List.prefix_refl _⟩
        · exact absurd hstep (by simp)
      · exact absurd hstep (by simp)
    · exact absurd hstep (by simp)
  | copyTimer i =>
    simp only [step] at hstep
    split at hstep
    · split at hstep
      · simp only [Option.some.injEq] at hstep
        subst hstep
        exact Or.inl ⟨rfl, rfl, rfl, rfl, List.prefix_refl _⟩
      · exact absurd hstep (by simp)
    · exact absurd hstep (by simp)
  | resetClick =>
    simp only [step] at hstep
    split at hstep
    · rename_i hview
      simp only [Option.some.injEq] at hstep
      exact Or.inr (Or.inr (Or.inr (Or.inr ⟨rfl, hview, hstep.symm⟩)))
    · exact absurd hstep (by simp)

theorem head?_of_extension {α : Type} {l₁ l₂ : List α} {a : α} (h : l₁ <+: l₂)
    (ha : l₁.head? = some a) : l₂.head? = some a := by
  obtain ⟨t, rfl⟩ := h
  cases l₁ with
  | nil => simp at ha
  | cons x xs => simpa using ha

theorem seedFirst_step (s s1 : State) (e : Event) (hstep : step s e = some s1)
    (hinv : SeedFirst s) : SeedFirst s1 := by
  rcases step_effect s s1 e hstep with hf | ⟨files0, -, hview, rfl⟩ |
    ⟨i, r, -, -, hview, hmsgs, -, -⟩ | ⟨i, due, f, -, -, rfl⟩ | ⟨-, -, rfl⟩
  · obtain ⟨hview, -, -, -, hpre⟩ := hf
    intro hw
    obtain ⟨name, now, hhead⟩ := hinv (hview ▸ hw)
    exact ⟨name, now, head?_of_extension hpre hhead⟩
  · intro hw
    have : (handleUpload files0 s).view = s.view := by cases files0 <;> rfl
    rw [this, hview] at hw
    exact absurd hw (by decide)
  · intro hw
    rw [hmsgs]
    exact hinv (hview ▸ hw)
  · intro _
    exact ⟨f.name, s.clock, rfl⟩
  · intro hw
    exact absurd hw (by simp [resetSession])

theorem seedFirst_of_reachable (companyId : String) (s : State)
    (h : Reachable companyId s) : SeedFirst s := by
  induction h with
  | init => intro hw; exact absurd hw (by simp [initialState])
  | next e _ hstep ih => exact seedFirst_step _ _ e hstep ih

theorem stepSerial_step (s s1 : State) (e : Event) (h : stepSerial s e = some s1) :
    step s e = some s1 ∧
      (∀ files0, e = .fileChange files0 → s.pendingUploads = [] ∧ s.uploadTimers = []) := by
  cases e with
  | fileChange files0 =>
    simp only [stepSerial] at h
    split at h
    · rename_i hguard
      exact ⟨h, fun _ _ => hguard⟩
    · exact absurd h (by simp)
  | tick | uploadFulfilled | uploadRejected | uploadTimer | inputChange | formSubmit
  | quickAction | chatFulfilled | chatRejected | downloadClick | copyClick | copyTimer
  | resetClick =>
    exact ⟨h, fun _ he => absurd he (by simp)⟩

theorem length_lt_of_getElem? {α : Type} {l : List α} {i : Nat} {a : α}
    (h : l[i]? = some a) : i < l.length := by
  obtain ⟨hlt, -⟩ := List.getElem?_eq_some.mp h
  exact hlt

theorem serialInv_step (s s1 : State) (e : Event) (hstep : stepSerial s e = some s1)
    (hinv : SerialInv s) : SerialInv s1 := by
  obtain ⟨hone, hws, htimers, hseed⟩ := hinv
  obtain ⟨hstep, hguard⟩ := stepSerial_step s s1 e hstep
  rcases step_effect s s1 e hstep with hf | ⟨files0, he, hview, rfl⟩ |
    ⟨i, r, -, hget, hview, hmsgs, hpu, hsettle⟩ | ⟨i, due, f, -, hget, rfl⟩ | ⟨-, hview, rfl⟩
  · obtain ⟨hview, hfile, hpu, hut, hpre⟩ := hf
    refine ⟨by rw [hpu, hut]; exact hone, ?_, ?_, ?_⟩
    · intro hw
      rw [hpu, hut]
      exact hws (hview ▸ hw)
    · intro p hp
      rw [hfile]
      exact htimers p (hut ▸ hp)
    · intro hw
      obtain ⟨f, now, hf, hhead⟩ := hseed (hview ▸ hw)
      exact ⟨f, now, hfile.trans hf, head?_of_extension hpre hhead⟩
  · obtain ⟨hpu, hut⟩ := hguard files0 he
    cases files0 with
    | none => exact ⟨hone, hws, htimers, hseed⟩
    | some f =>
      refine ⟨by simp [handleUpload, hpu, hut], ?_, ?_, ?_⟩
      · intro hw
        exact absurd (hview ▸ hw : View.landing = View.workspace) (by decide)
      · intro p hp
        simp [handleUpload, hut] at hp
      · intro hw
        exact absurd (hview ▸ hw : View.landing = View.workspace) (by decide)
  · have hlt := length_lt_of_getElem? hget
    have hnotws : s.view ≠ .workspace := by
      intro hw
      rw [(hws hw).1] at hlt
      exact absurd hlt (by simp)
    have hut : s.uploadTimers = [] := List.length_eq_zero.mp (by omega)
    have hlen : (s.pendingUploads.eraseIdx i).length = 0 := by
      rw [List.length_eraseIdx_of_lt hlt]; omega
    refine ⟨?_, ?_, ?_, ?_⟩
    · rcases hsettle with ⟨-, ht⟩ | ⟨-, ht⟩
      · rw [hpu, ht, hut, hlen]; simp
      · rw [hpu, ht, hut, hlen]; simp
    · intro hw
      exact absurd (hview ▸ hw) hnotws
    · intro p hp
      rcases hsettle with ⟨hfile, ht⟩ | ⟨-, ht⟩
      · rw [ht, hut] at hp
        simp only [List.nil_append, List.mem_singleton] at hp
        rw [hfile, hp]
      · rw [ht, hut] at hp
        exact absurd hp (List.not_mem_nil p)
    · intro hw
      exact absurd (hview ▸ hw) hnotws
  · have hlt := length_lt_of_getElem? hget
    have hfile : s.file = some f := htimers (due, f) (List.getElem?_mem hget)
    have hpu : s.pendingUploads = [] := List.length_eq_zero.mp (by omega)
    have hlen : (s.uploadTimers.eraseIdx i).length = 0 := by
      rw [List.length_eraseIdx_of_lt hlt]; omega
    have hnil : s.uploadTimers.eraseIdx i = [] := List.length_eq_zero.mp hlen
    refine ⟨?_, ?_, ?_, ?_⟩
    · simp [uploadTimerFired, hpu, hnil]
    · intro _
      exact ⟨hpu, hnil⟩
    · intro p hp
      simp [uploadTimerFired, hnil] at hp
    · intro _
      exact ⟨f, s.clock, hfile, rfl⟩
  · obtain ⟨hpu, hut⟩ := hws hview
    refine ⟨by simp [resetSession, hpu, hut], ?_, ?_, ?_⟩
    · intro hw
      exact absurd hw (by simp [resetSession])
    · intro p hp
      simp [resetSession, hut] at hp
    · intro hw
      exact absurd hw (by simp [resetSession])

theorem serialInv_of_reachable (companyId : String) (s : State)
    (h : ReachableSerial companyId s) : SerialInv s := by
  induction h with
  | init =>
    refine ⟨by simp [initialState], ?_, ?_, ?_⟩
    · intro hw; exact absurd hw (by simp [initialState])
    · intro p hp; simp [initialState] at hp
    · intro hw; exact absurd hw (by simp [initialState])
  | next e _ hstep ih => exact serialInv_step _ _ e hstep ih

/-- C10, counterexample: `resetBeforeSecondTimer` reaches a state whose view is
workspace and in which no file is set: the reset clears the file and the timer
of the second upload, still pending, opens the workspace again. -/
theorem workspace_without_file_reachable :
    ¬ ∀ (companyId : String) (s : State), Reachable companyId s → s.view = .workspace →
        ∃ f now, s.file = some f ∧ s.messages.head? = some (seedMessage f.name now) := by
  intro h
  have hreach : ∀ s, run (initialState "comp_k3j9x2m1q") resetBeforeSecondTimer = some s →
      Reachable "comp_k3j9x2m1q" s :=
    fun s hs => reachable_of_run _ _ _ s Reachable.init hs
  obtain ⟨f, now, hfile, -⟩ := h "comp_k3j9x2m1q"
    { initialState "comp_k3j9x2m1q" with
      view := .workspace, file := none, uploadStatus := .idle,
      messages := [seedMessage "travel.docx" 1000],
      clock := 1000 }
    (hreach _ (by decide)) rfl
  exact absurd hfile (by simp [initialState])

/-- C10, amended: in every reachable state whose view is workspace the
transcript starts with a seed message; and in every state reachable without
overlapping uploads (a file is selected only while no upload request is in
flight and no upload timer is pending) whose view is workspace, a file is set
and the first message of the transcript is the seed message naming it. -/
theorem workspace_starts_with_seed (companyId : String) (s : State)
    (hview : s.view = .workspace) :
    (Reachable companyId s → ∃ name now, s.messages.head? = some (seedMessage name now)) ∧
      (ReachableSerial companyId s →
        ∃ f now, s.file = some f ∧ s.messages.head? = some (seedMessage f.name now)) :=
  ⟨fun h => seedFirst_of_reachable companyId s h hview,
    fun h => (serialInv_of_reachable companyId s h).2.2.2 hview⟩

theorem reachableSerial_of_run (companyId : String) (es : List Event) :
    ∀ s s1 : State, ReachableSerial companyId s → runSerial s es = some s1 →
      ReachableSerial companyId s1 := by
  induction es with
  | nil =>
    intro s s1 hs hrun
    simp only [runSerial, Option.some.injEq] at hrun
    exact hrun ▸ hs
  | cons e es ih =>
    intro s s1 hs hrun
    simp only [runSerial] at hrun
    cases hstep : stepSerial s e with
    | none => simp [hstep] at hrun
    | some s2 =>
      rw [hstep] at hrun
      exact ih s2 s1 (ReachableSerial.next e hs hstep) hrun

theorem workspace_starts_with_seed_witness :
    sampleWorkspace.view = .workspace ∧
      runSerial (initialState "comp_k3j9x2m1q") singleUpload = some sampleWorkspace ∧
      run (initialState "comp_k3j9x2m1q") singleUpload = some sampleWorkspace ∧
      (∃ name now, sampleWorkspace.messages.head? = some (seedMessage name now)) ∧
      (∃ f now, sampleWorkspace.file = some f ∧
        sampleWorkspace.messages.head? = some (seedMessage f.name now)) :=
  ⟨rfl, by decide, by decide,
    (workspace_starts_with_seed "comp_k3j9x2m1q" sampleWorkspace rfl).1
      (reachable_of_run _ singleUpload _ _ Reachable.init (by decide)),
    (workspace_starts_with_seed "comp_k3j9x2m1q" sampleWorkspace rfl).2
      (reachableSerial_of_run _ singleUpload _ _ ReachableSerial.init (by decide))⟩

/-! ## Copy indicator -/

theorem step_copy_effect (s s1 : State) (e : Event) (hstep : step s e = some s1) :
    (s1.copiedIndex = s.copiedIndex ∧ s1.copyTimers = s.copyTimers ∧ s.clock ≤ s1.clock) ∨
      (∃ i, s1 = copyToClipboard i s) ∨ s1.copiedIndex = none := by
  cases e with
  | tick dt =>
    simp only [step, Option.some.injEq] at hstep
    subst hstep
    exact Or.inl ⟨rfl, rfl, Nat.le_add_right _ _⟩
  | fileChange files0 =>
    simp only [step] at hstep
    split at hstep
    · simp only [Option.some.injEq] at hstep
      subst hstep
      cases files0 <;> exact Or.inl ⟨rfl, rfl, Nat.le_refl _⟩
    · exact absurd hstep (by simp)
  | uploadFulfilled i =>
    simp only [step] at hstep
    split at hstep
    · simp only [Option.some.injEq] at hstep
      subst hstep
      exact Or.inl ⟨rfl, rfl, Nat.le_refl _⟩
    · exact absurd hstep (by simp)
  | uploadRejected i =>
    simp only [step] at hstep
    split at hstep
    · simp only [Option.some.injEq] at hstep
      subst hstep
      exact Or.inl ⟨rfl, rfl, Nat.le_refl _⟩
    · exact absurd hstep (by simp)
  | uploadTimer i =>
    simp only [step] at hstep
    split at hstep
    · split at hstep
      · simp only [Option.some.injEq] at hstep
        subst hstep
        exact Or.inl ⟨rfl, rfl, Nat.le_refl _⟩
      · exact absurd hstep (by simp)
    · exact absurd hstep (by simp)
  | inputChange value =>
    simp only [step] at hstep
    split at hstep
    · simp only [Option.some.injEq] at hstep
      subst hstep
      exact Or.inl ⟨rfl, rfl, Nat.le_refl _⟩
    · exact absurd hstep (by simp)
  | formSubmit =>
    simp only [step] at hstep
    split at hstep
    · simp only [Option.some.injEq] at hstep
      subst hstep
      rcases sendMessage_cases (.str s.input) s with h | ⟨m, h⟩ <;> rw [h] <;>
        exact Or.inl ⟨rfl, rfl, Nat.le_refl _⟩
    · exact absurd hstep (by simp)
  | quickAction i =>
    simp only [step] at hstep
    split at hstep
    · split at hstep
      · rename_i action _
        simp only [Option.some.injEq] at hstep
        subst hstep
        rcases sendMessage_cases (.str action) s with h | ⟨m, h⟩ <;> rw [h] <;>
          exact Or.inl ⟨rfl, rfl, Nat.le_refl _⟩
      · exact absurd hstep (by simp)
    · exact absurd hstep (by simp)
  | chatFulfilled i res =>
    simp only [step] at hstep
    split at hstep
    · simp only [Option.some.injEq] at hstep
      subst hstep
      exact Or.inl ⟨rfl, rfl, Nat.le_refl _⟩
    · exact absurd hstep (by simp)
  | chatRejected i =>
    simp only [step] at hstep
    split at hstep
    · simp only [Option.some.injEq] at hstep
      subst hstep
      exact Or.inl ⟨rfl, rfl, Nat.le_refl _⟩
    · exact absurd hstep (by simp)
  | downloadClick =>
    simp only [step] at hstep
    split at hstep
    · simp only [Option.some.injEq] at hstep
      subst hstep
      exact Or.inl ⟨rfl, rfl, Nat.le_refl _⟩
    · exact absurd hstep (by simp)
  | copyClick i =>
    simp only [step] at hstep
    split at hstep
    · split at hstep
      · split at hstep
        · simp only [Option.some.injEq] at hstep
          exact Or.inr (Or.inl ⟨i, hstep.symm⟩)
        · exact absurd hstep (by simp)
      · exact absurd hstep (by simp)
    · exact absurd hstep (by simp)
  | copyTimer i =>
    simp only [step] at hstep
    split at hstep
    · split at hstep
      · simp only [Option.some.injEq] at hstep
        subst hstep
        exact Or.inr (Or.inr rfl)
      · exact absurd hstep (by simp)
    · exact absurd hstep (by simp)
  | resetClick =>
    simp only [step] at hstep
    split at hstep
    · simp only [Option.some.injEq] at hstep
      subst hstep
      exact Or.inl ⟨rfl, rfl, Nat.le_refl _⟩
    · exact absurd hstep (by simp)

theorem copyTimerPending_of_reachable (companyId : String) (s : State)
    (h : Reachable companyId s) : CopyTimerPending s := by
  induction h with
  | init => intro i hi; simp [initialState] at hi
  | @next s0 s1 e _ hstep ih =>
    rcases step_copy_effect s0 s1 e hstep with ⟨hidx, htimers, hclock⟩ | ⟨j, rfl⟩ | hnone
    · intro i hi
      obtain ⟨n, due, hget, hdue⟩ := ih i (hidx ▸ hi)
      exact ⟨n, due, htimers ▸ hget, by omega⟩
    · intro i _
      exact ⟨s0.copyTimers.length, s0.clock + 2000,
        List.getElem?_concat_length _ _, Nat.le_refl _⟩
    · intro i hi
      rw [hnone] at hi
      exact absurd hi (by simp)

/-- C9, counterexample: at the end of `copyThenWait` index 0 is tracked;
message 2 is copied, and 500 ms later the timer set by the copy of message 0
fires: no index is tracked although only 500 ms have passed since the copy of
message 2 and no other copy took place. -/
theorem copy_indicator_reverts_early :
    ¬ ∀ (companyId : String) (s s1 s2 : State) (i j : Nat) (es : List Event),
        Reachable companyId s → i ≠ j → s.copiedIndex = some i →
        step s (.copyClick j) = some s1 → (∀ k, Event.copyClick k ∉ es) →
        run s1 es = some s2 → s2.clock < s1.clock + 2000 → s2.copiedIndex = some j := by
  intro h
  have hreach : Reachable "comp_k3j9x2m1q" copiedZero :=
    reachable_of_run _ copyThenWait _ _ Reachable.init (by decide)
  have hbad := h "comp_k3j9x2m1q" copiedZero
    { copiedZero with copiedIndex := some 2, copyTimers := [3000, 4500] }
    { copiedZero with copiedIndex := none, clock := 3000, copyTimers := [4500] }
    0 2 [.tick 500, .copyTimer 0] hreach (by decide) (by decide) (by decide)
    (by intro k; simp) (by decide) (by decide)
  exact absurd hbad (by decide)

/-- C9, amended: for all indices `i ≠ j`, `copyToClipboard` of `j` while `i` is
the tracked index gives `copiedIndex = j`, so that `j` and no other index is
shown as copied; the copy sets a timer due 2000 ms later, which cannot fire
before, fires once 2000 ms have passed, and leaves `copiedIndex` empty.  The
indicator may be cleared sooner: the firing of any copy timer leaves
`copiedIndex` empty, and in a reachable state a timer set by an earlier copy
is pending, is still pending after the copy of `j`, is due no later than the
timer of `j`, and clears the indicator of `j` when it fires. -/
theorem copy_indicator_moves_and_reverts (companyId : String) (s : State) (i j : Nat)
    (hij : i ≠ j) (htracked : s.copiedIndex = some i) :
    shownAsCopied s i = true ∧
      (copyToClipboard j s).copiedIndex = some j ∧
      (∀ k, shownAsCopied (copyToClipboard j s) k = true ↔ k = j) ∧
      shownAsCopied (copyToClipboard j s) i = false ∧
      (copyToClipboard j s).copyTimers = s.copyTimers ++ [s.clock + 2000] ∧
      (∀ dt, dt < 2000 →
        run (copyToClipboard j s) [.tick dt, .copyTimer s.copyTimers.length] = none) ∧
      (∀ dt, 2000 ≤ dt →
        ∃ s1, run (copyToClipboard j s) [.tick dt, .copyTimer s.copyTimers.length] = some s1 ∧
          s1.copiedIndex = none ∧ ∀ k, shownAsCopied s1 k = false) ∧
      (∀ (s0 s1 : State) (n : Nat), step s0 (.copyTimer n) = some s1 →
        s1.copiedIndex = none ∧ ∀ k, shownAsCopied s1 k = false) ∧
      (Reachable companyId s →
        ∃ n due, n < s.copyTimers.length ∧ s.copyTimers[n]? = some due ∧
          (copyToClipboard j s).copyTimers[n]? = some due ∧ due ≤ s.clock + 2000 ∧
          ∀ dt, due ≤ s.clock + dt →
            ∃ s1, run (copyToClipboard j s) [.tick dt, .copyTimer n] = some s1 ∧
              s1.copiedIndex = none ∧ shownAsCopied s1 j = false) := by
  refine ⟨?_, rfl, ?_, ?_, rfl, ?_, ?_, ?_, ?_⟩
  · simp [shownAsCopied, htracked]
  · intro k
    simp only [shownAsCopied, copyToClipboard, beq_iff_eq, Option.some.injEq]
    exact eq_comm
  · simp only [shownAsCopied, copyToClipboard, beq_eq_false_iff_ne, ne_eq, Option.some.injEq]
    exact fun h => hij h.symm
  · intro dt hdt
    have hdue : ¬ (s.clock + 2000 ≤ s.clock + dt) := by omega
    simp [run, step, copyToClipboard, hdue]
  · intro dt hdt
    have hdue : s.clock + 2000 ≤ s.clock + dt := by omega
    simp [run, step, copyToClipboard, copyTimerFired, shownAsCopied, hdue]
  · intro s0 s1 n hstep
    simp only [step] at hstep
    split at hstep
    · split at hstep
      · simp only [Option.some.injEq] at hstep
        subst hstep
        exact ⟨rfl, fun k => by simp [shownAsCopied, copyTimerFired]⟩
      · exact absurd hstep (by simp)
    · exact absurd hstep (by simp)
  · intro hreach
    obtain ⟨n, due, hget, hdue⟩ := copyTimerPending_of_reachable companyId s hreach i htracked
    have hlt : n < s.copyTimers.length := length_lt_of_getElem? hget
    have hget1 : (s.copyTimers ++ [s.clock + 2000])[n]? = some due := by
      rw [List.getElem?_append_left hlt]; exact hget
    refine ⟨n, due, hlt, hget, hget1, hdue, ?_⟩
    intro dt hdt
    simp [run, step, copyToClipboard, copyTimerFired, shownAsCopied, hget1, hdt]

theorem copy_indicator_moves_and_reverts_witness :
    (0 ≠ 2 ∧ copiedZero.copiedIndex = some 0 ∧
      run (initialState "comp_k3j9x2m1q") copyThenWait = some copiedZero) ∧
    (copyToClipboard 2 copiedZero).copiedIndex = some 2 ∧
    (∀ k, shownAsCopied (copyToClipboard 2 copiedZero) k = true ↔ k = 2) ∧
    (copyToClipboard 2 copiedZero).copyTimers = [3000, 4500] ∧
    (∃ s1, run (copyToClipboard 2 copiedZero)
        [.tick 2000, .copyTimer copiedZero.copyTimers.length] = some s1 ∧
      s1.copiedIndex = none ∧ ∀ k, shownAsCopied s1 k = false) ∧
    (∃ n due, n < copiedZero.copyTimers.length ∧ copiedZero.copyTimers[n]? = some due ∧
      (copyToClipboard 2 copiedZero).copyTimers[n]? = some due ∧
      due ≤ copiedZero.clock + 2000 ∧
      ∀ dt, due ≤ copiedZero.clock + dt →
        ∃ s1, run (copyToClipboard 2 copiedZero) [.tick dt, .copyTimer n] = some s1 ∧
          s1.copiedIndex = none ∧ shownAsCopied s1 2 = false) :=
  ⟨⟨by decide, rfl, by decide⟩,
    (copy_indicator_moves_and_reverts "comp_k3j9x2m1q" copiedZero 0 2 (by decide) rfl).2.1,
    (copy_indicator_moves_and_reverts "comp_k3j9x2m1q" copiedZero 0 2 (by decide) rfl).2.2.1,
    (copy_indicator_moves_and_reverts "comp_k3j9x2m1q" copiedZero 0 2 (by decide) rfl).2.2.2.2.1,
    (copy_indicator_moves_and_reverts "comp_k3j9x2m1q" copiedZero 0 2 (by decide)
      rfl).2.2.2.2.2.2.1 2000 (Nat.le_refl _),
    (copy_indicator_moves_and_reverts "comp_k3j9x2m1q" copiedZero 0 2 (by decide)
      rfl).2.2.2.2.2.2.2.2
      (reachable_of_run _ copyThenWait _ _ Reachable.init (by decide))⟩

end PolicyAssistant
